import Mathlib

/-!
# A shallow embedding of `gfunc2d/mksynth.py`

This file translates the two functions of `gfunc2d/mksynth.py` —
`generate_synth_stars` and `make_synth_obs` — into Lean definitions and
proves properties of them.

Modelling conventions:
* Machine floats become exact rationals (`ℚ`).
* The transcendental maps used by the code (`10 ** x`, `u ** (-1/(IMF_alpha-1))`,
  `np.exp`, `np.log10`) are abstracted as rational-valued function parameters
  carried in an `Env` record; nothing proved below depends on their analytic
  form except where an explicit hypothesis states the needed property.
* `np.random` draws are modelled as explicit input streams; seeding
  (`np.random.seed(rand_seed)`) is modelled by deriving the whole stream
  deterministically from the seed.
* The isochrone-grid collaborator (`get_isochrone` / `get_gridparams` from
  `gfunc2d.gridtools`, whose source is not part of this development) is
  abstracted, following its narrow query contract, as a function from
  (metallicity, age) to a mass-ordered track plus the realized
  (alpha, feh, age) triple.
-/

namespace Mksynth

/-- Absolute value on `ℚ`, written out explicitly (models `np.abs`). -/
def qabs (x : ℚ) : ℚ := if x < 0 then -x else x

/-- `np.diff`: the list of successive differences `xs[i+1] - xs[i]`. -/
def npDiff (xs : List ℚ) : List ℚ := (xs.zip xs.tail).map (fun p => p.2 - p.1)

/-- The total preorder used by `argsort` on indices of `xs`: order by value,
breaking ties by index (a deterministic stable tie-break standing in for
numpy's unspecified tie order; every claim below is insensitive to ties). -/
def argRel (xs : List ℚ) (i j : ℕ) : Prop :=
  xs.getD i 0 < xs.getD j 0 ∨ (xs.getD i 0 = xs.getD j 0 ∧ i ≤ j)

instance argRelDecidable (xs : List ℚ) : DecidableRel (argRel xs) := fun i j => by
  unfold argRel; exact inferInstance

/-- `np.argsort xs`: the indices `0, …, xs.length - 1` sorted by the value
they point at (ascending). -/
def argsort (xs : List ℚ) : List ℕ :=
  List.insertionSort (argRel xs) (List.range xs.length)

/-- `int(np.median(xs))` for a list of natural-number indices: sort, take the
middle element for odd length, and for even length the truncated mean of the
two middle elements. -/
def npMedianNat (xs : List ℕ) : ℕ :=
  let s := List.insertionSort (· ≤ ·) xs
  if xs.length % 2 = 1 then s.getD (xs.length / 2) 0
  else (s.getD (xs.length / 2 - 1) 0 + s.getD (xs.length / 2) 0) / 2

/-- `low_inds = np.argsort(np.diff(temps))[:5]` (mksynth.py line 102), where
`temps` is the array `10**q['logT']` of node temperatures along the track. -/
def low_inds (temps : List ℚ) : List ℕ := (argsort (npDiff temps)).take 5

/-- `split_ind = int(np.median(low_inds))` (mksynth.py line 104): the
dwarf/giant split index of a track with node temperatures `temps`. -/
def split_ind (temps : List ℚ) : ℕ := npMedianNat (low_inds temps)

/-- One isochrone track `q` as returned by the grid query: named columns
(`'Mini'`, `'logT'`, …), each a list of per-node values ordered by the
node's initial mass. -/
structure Track where
  cols : List (String × List ℚ)

/-- Column access `q[param]`; the empty column for a name the track lacks. -/
def Track.col (t : Track) (p : String) : List ℚ := (List.lookup p t.cols).getD []

/-- The ambient environment of `generate_synth_stars` / `make_synth_obs`:

* `grid feh age` models `get_isochrone(gridfile, 0.0, feh, age)`, returning
  the track `q` and the realized triple `afa` (the collaborator's contract;
  its source is external to this development);
* `gridParams` models `get_gridparams(gridfile)[0]`, the list of parameter
  names present on every track node;
* `pow10` models the real map `x ↦ 10 ** x`;
* `imfPow` models the real map `u ↦ u ** (-1/(IMF_alpha - 1))` of the
  inverse-transform IMF sampling (for `IMF_alpha > 1` and `0 < u < 1` the
  real map has value `≥ 1`, which is taken as a hypothesis where needed);
* `exp` and `log10` model `np.exp` and `np.log10`. -/
structure Env where
  grid : ℚ → ℚ → Track × (ℚ × ℚ × ℚ)
  gridParams : List String
  pow10 : ℚ → ℚ
  imfPow : ℚ → ℚ
  exp : ℚ → ℚ
  log10 : ℚ → ℚ

/-- The `t_bursts` argument restricted to the two shapes the sampler
supports: a 1-D array `[t_low, t_high, prob]` or a 2-D array of such rows.
(The behaviour of `generate_synth_stars` on other shapes is modelled
separately by `burstPreLoop` below.) -/
inductive Bursts where
  | single (tlow thigh p : ℚ)
  | multi (rows : List (ℚ × ℚ × ℚ))
deriving DecidableEq

/-- The non-random scalar inputs of `generate_synth_stars`. -/
structure Config where
  tBursts : Bursts
  ns : ℕ
  fehMean : ℚ
  fehDisp : ℚ
  extraGiants : ℚ

/-- The random values consumed by one iteration of the sampling loop:
the chosen burst index (`np.random.choice`), the uniform age position
(`np.random.rand()`), the standard-normal metallicity deviate, and the
uniform variate `u` of the IMF mass transform. -/
structure Draw where
  iBurst : ℕ
  uAge : ℚ
  zFeh : ℚ
  uMass : ℚ
deriving DecidableEq

/-- One accepted star: the interpolated value of every tracked parameter,
the realized isochrone age, and the evolutionary-phase flag. -/
structure Star where
  vals : List (String × ℚ)
  age : ℚ
  phase : ℚ
deriving DecidableEq

/-- The mutable state of the sampling loop: `iv` accepted so far, `ne`
rejected so far, and the accepted stars in draw order. -/
structure SState where
  iv : ℕ
  ne : ℕ
  stars : List Star
deriving DecidableEq

/-- The candidate age of one draw (mksynth.py lines 90-95). -/
def ageOf (cfg : Config) (d : Draw) : ℚ :=
  match cfg.tBursts with
  | .single t0 t1 _ => t0 + (t1 - t0) * d.uAge
  | .multi rows =>
      let r := rows.getD d.iBurst (0, 0, 0)
      r.1 + (r.2.1 - r.1) * d.uAge

/-- The candidate metallicity `feh_test = np.random.normal(feh_mean, feh_disp)`
written as mean plus scaled standard-normal deviate (line 96). -/
def fehOf (cfg : Config) (d : Draw) : ℚ := cfg.fehMean + cfg.fehDisp * d.zFeh

/-- The track `q` returned by the grid query for this draw (line 99). -/
def trackOf (env : Env) (cfg : Config) (d : Draw) : Track :=
  (env.grid (fehOf cfg d) (ageOf cfg d)).1

/-- `iso_age = afa[2]`, the realized age of the queried isochrone (line 120). -/
def isoAgeOf (env : Env) (cfg : Config) (d : Draw) : ℚ :=
  (env.grid (fehOf cfg d) (ageOf cfg d)).2.2.2

/-- The node temperatures `10**q['logT']` of this draw's track. -/
def tempsOf (env : Env) (cfg : Config) (d : Draw) : List ℚ :=
  ((trackOf env cfg d).col "logT").map env.pow10

/-- The dwarf/giant split index of this draw's track (lines 102-104). -/
def splitOf (env : Env) (cfg : Config) (d : Draw) : ℕ :=
  split_ind (tempsOf env cfg d)

/-- Tail of the computation of `np.argmin`: first index attaining the
minimum of `qabs (x - c)` over the remaining list, given the best so far. -/
def argminAbsAux (c : ℚ) : List ℚ → ℕ → ℕ → ℚ → ℕ
  | [], _, bi, _ => bi
  | x :: xs, i, bi, bv =>
      if qabs (x - c) < bv then argminAbsAux c xs (i + 1) i (qabs (x - c))
      else argminAbsAux c xs (i + 1) bi bv

/-- `np.argmin(np.abs(xs - c))`: the first index minimizing the distance to
`c` (0 on the empty list, on which numpy raises instead). -/
def argminAbs (xs : List ℚ) (c : ℚ) : ℕ :=
  match xs with
  | [] => 0
  | x :: rest => argminAbsAux c rest 1 0 (qabs (x - c))

/-- The minimum mass of an unforced (dwarf-eligible) draw (lines 110-112):
initial mass at the pre-split node whose temperature is closest to
`Teffmin_dwarf = 4500 - 500*feh_test`. -/
def dwarfMinMass (env : Env) (cfg : Config) (d : Draw) : ℚ :=
  let idx := argminAbs ((tempsOf env cfg d).take (splitOf env cfg d))
      (4500 - 500 * fehOf cfg d)
  ((trackOf env cfg d).col "Mini").getD idx 0

/-- The minimum mass of a phase-forced giant draw (line 115): the initial
mass at the split index. -/
def giantMinMass (env : Env) (cfg : Config) (d : Draw) : ℚ :=
  ((trackOf env cfg d).col "Mini").getD (splitOf env cfg d) 0

/-- The minimum-mass / phase policy (lines 108-116): the pair
`(m_min, phase_i)` chosen by comparing the running accepted count `iv`
against `ns * (1 - extra_giants)`. -/
def minMassOf (env : Env) (cfg : Config) (iv : ℕ) (d : Draw) : ℚ × ℚ :=
  if (iv : ℚ) < (cfg.ns : ℚ) * (1 - cfg.extraGiants) then
    (dwarfMinMass env cfg d, 0)
  else (giantMinMass env cfg d, 1)

/-- The drawn initial mass `m = m_min * u**(-1/(IMF_alpha-1))` (line 118). -/
def mOf (env : Env) (cfg : Config) (iv : ℕ) (d : Draw) : ℚ :=
  (minMassOf env cfg iv d).1 * env.imfPow d.uMass

/-- `q_mass[-1]`, the last (maximum, for a sorted track) initial mass. -/
def lastMassOf (env : Env) (cfg : Config) (d : Draw) : ℚ :=
  (((trackOf env cfg d).col "Mini").getLast?).getD 0

/-- `np.where(xs <= m)[0][-1]`: the last index whose value is `≤ m`
(`xs.length` when none exists, where numpy raises instead). -/
def lastLe (xs : List ℚ) (m : ℚ) : ℕ :=
  ((List.range xs.length).filter (fun i => decide (xs.getD i 0 ≤ m))).getLastD xs.length

/-- `np.where(xs > m)[0][0]`: the first index whose value is `> m`
(`xs.length` when none exists, where numpy raises instead). -/
def firstGt (xs : List ℚ) (m : ℚ) : ℕ :=
  xs.findIdx (fun x => decide (m < x))

/-- `im = np.where(q_mass <= m)[0][-1]` for the current draw (line 126). -/
def imOf (env : Env) (cfg : Config) (iv : ℕ) (d : Draw) : ℕ :=
  lastLe ((trackOf env cfg d).col "Mini") (mOf env cfg iv d)

/-- `ip = np.where(q_mass > m)[0][0]` for the current draw (line 127). -/
def ipOf (env : Env) (cfg : Config) (iv : ℕ) (d : Draw) : ℕ :=
  firstGt ((trackOf env cfg d).col "Mini") (mOf env cfg iv d)

/-- The interpolation weight `h = (m - q_mass[im]) / (q_mass[ip] - q_mass[im])`
(line 129). -/
def hOf (env : Env) (cfg : Config) (iv : ℕ) (d : Draw) : ℚ :=
  let qmass := (trackOf env cfg d).col "Mini"
  (mOf env cfg iv d - qmass.getD (imOf env cfg iv d) 0) /
    (qmass.getD (ipOf env cfg iv d) 0 - qmass.getD (imOf env cfg iv d) 0)

/-- The interpolated value `(1-h)*q[param][im] + h*q[param][ip]` of one
parameter (line 132). -/
def interpValOf (env : Env) (cfg : Config) (iv : ℕ) (d : Draw) (p : String) : ℚ :=
  (1 - hOf env cfg iv d) * (((trackOf env cfg d).col p).getD (imOf env cfg iv d) 0) +
    hOf env cfg iv d * (((trackOf env cfg d).col p).getD (ipOf env cfg iv d) 0)

/-- The `Star` record written by an accepting iteration (lines 125-134):
every grid parameter linearly interpolated between the bracketing nodes
`im` and `ip` with weight `h`, plus the realized age and the phase flag. -/
def starOf (env : Env) (cfg : Config) (iv : ℕ) (d : Draw) : Star :=
  { vals := env.gridParams.map (fun p => (p, interpValOf env cfg iv d p)),
    age := isoAgeOf env cfg d,
    phase := (minMassOf env cfg iv d).2 }

/-- One iteration of the sampling loop body (lines 88-138): accept the draw
(record a star, increment `iv`) iff `m < q_mass[-1]`, otherwise increment
the rejection counter `ne`. -/
def step (env : Env) (cfg : Config) (st : SState) (d : Draw) : SState :=
  if mOf env cfg st.iv d < lastMassOf env cfg d then
    { iv := st.iv + 1, ne := st.ne, stars := st.stars ++ [starOf env cfg st.iv d] }
  else { iv := st.iv, ne := st.ne + 1, stars := st.stars }

/-- The `while iv < ns` loop (line 88) run over an explicit finite stream of
random draws: it consumes draws until `ns` stars are accepted or the stream
is exhausted. -/
def runLoop (env : Env) (cfg : Config) : List Draw → SState → SState
  | [], st => st
  | d :: ds, st =>
      if st.iv < cfg.ns then runLoop env cfg ds (step env cfg st d) else st

/-- The initial loop state `iv = 0, ne = 0`, no stars. -/
def initState : SState := ⟨0, 0, []⟩

/-- `generate_synth_stars` run against an explicit stream of random draws. -/
def runGen (env : Env) (cfg : Config) (draws : List Draw) : SState :=
  runLoop env cfg draws initState

/-- One step of the linear congruential generator standing in for numpy's
seeded global Mersenne Twister: only determinism in the seed matters here. -/
def lcg (s : ℕ) : ℕ := (1103515245 * s + 12345) % 2147483648

/-- The `n`-th raw state of the seeded generator. -/
def lcgStream (seed : ℕ) : ℕ → ℕ
  | 0 => lcg seed
  | n + 1 => lcg (lcgStream seed n)

/-- A raw generator state mapped into `[0, 1) ∩ ℚ`. -/
def unit01 (n : ℕ) : ℚ := (n : ℚ) / 2147483648

/-- The deterministic stream of per-iteration draws produced by the seeded
generator (`np.random.seed(rand_seed)`, line 55): every random quantity of
the run is a function of `seed` alone. -/
def drawsOfSeed (seed : ℕ) (len : ℕ) : List Draw :=
  (List.range len).map (fun k =>
    { iBurst := lcgStream seed (4 * k),
      uAge := unit01 (lcgStream seed (4 * k + 1)),
      zFeh := unit01 (lcgStream seed (4 * k + 2)) - 1 / 2,
      uMass := unit01 (lcgStream seed (4 * k + 3)) })

/-- `generate_synth_stars(isogrid, outputfile, t_bursts, ns, feh_params, …,
rand_seed, extra_giants)`: seed the generator, then run the sampling loop
(`fuel` bounds the number of loop iterations modelled; the Python loop has
no such bound and simply iterates until `ns` stars are accepted). -/
def generate_synth_stars (env : Env) (cfg : Config) (seed : ℕ) (fuel : ℕ) : SState :=
  runGen env cfg (drawsOfSeed seed fuel)

/-! ## Shape-level model of the burst-array handling

`generate_synth_stars` begins with
`single_burst = True if len(t_bursts.shape) == 1 else False` (line 58) and,
for a non-1-D array, computes `prob = t_bursts[:, 2]` before the loop
(line 70); inside the loop the first statement of a non-single-burst
iteration is `np.random.choice(range(n_bursts), p=prob)` (line 93).
The following definitions model what those numpy operations do to an array
of arbitrary dimension, tracking only shapes. -/

/-- Outcome of the pre-loop burst setup for a `t_bursts` array of the given
shape. -/
inductive BurstSetup where
  /-- 1-D shape: the single-burst branch, no weights column extracted. -/
  | singleBurst
  /-- non-1-D shape on which `t_bursts[:, 2]` succeeds; the payload is the
  shape of the resulting `prob` array. -/
  | probShape (s : List ℕ)
  /-- `t_bursts[:, 2]` raised an `IndexError` before the loop. -/
  | indexError
deriving DecidableEq

/-- The pre-loop burst setup (lines 58 and 69-72) as a function of the shape
of `t_bursts`: basic indexing `a[:, 2]` on an array of `d ≥ 2` dimensions
needs the second axis to have length `> 2` and removes that axis, and raises
`IndexError` (too many indices) when `d < 2`. -/
def burstPreLoop (shape : List ℕ) : BurstSetup :=
  if shape.length = 1 then .singleBurst
  else if 2 ≤ shape.length ∧ 2 < shape.getD 1 0 then
    .probShape (shape.headD 0 :: shape.drop 2)
  else .indexError

/-- Whether the run aborts before the sampling loop begins: the weights
extraction `t_bursts[:, 2]` raises. -/
def failsBeforeLoop (shape : List ℕ) : Bool := burstPreLoop shape == .indexError

/-- Whether the run survives the pre-loop setup but aborts at the first
statement of the first loop iteration: `np.random.choice(range(n_bursts),
p=prob)` raises `ValueError` unless `p` is 1-dimensional. -/
def failsAtFirstDraw (shape : List ℕ) : Bool :=
  match burstPreLoop shape with
  | .probShape s => !(s.length == 1)
  | _ => false

/-! ## `make_synth_obs` -/

/-- `known_filters` (mksynth.py lines 6-8). -/
def known_filters : List String :=
  ["J", "H", "Ks",
   "u", "v", "g", "r", "i", "z",
   "G", "G_BPbr", "G_BPft", "G_RP"]

/-- The `plx_distribution` argument: one of the two named survey policies or
a constant parallax value. -/
inductive PlxDist where
  | SN
  | Skymapper
  | const (c : ℚ)
deriving DecidableEq

/-- The error message of the magnitude-without-parallax check (line 190). -/
def plxErrMsg : String := "plx must be in obs_params to observe magnitudes"

/-- The error message of the unknown-parameter check (line 206). -/
def keyErrMsg (p : String) : String := "Parameter " ++ p ++ " not in synthetic data..."

/-- Loading of the true parameters (lines 197-206): walk the requested
names in order, skip `'plx'`, fail on the first name absent from the
synthetic dataset, and store `10**value` for `'logT'` and the raw column for
every other name. -/
def loadTrue (env : Env) (synth : List (String × List ℚ)) :
    List String → Except String (List (String × List ℚ))
  | [] => .ok []
  | p :: rest =>
      if p = "plx" then loadTrue env synth rest
      else
        match List.lookup p synth with
        | none => .error (keyErrMsg p)
        | some col =>
            match loadTrue env synth rest with
            | .error e => .error e
            | .ok td => .ok ((p, if p = "logT" then col.map env.pow10 else col) :: td)

/-- The true parallaxes (lines 212-219): a lognormal-like draw per star for
the two survey policies (consuming `ns` standard-normal deviates `eps i`),
or a constant column consuming no randomness. -/
def plxTrueOf (env : Env) (ns : ℕ) (plxDist : PlxDist) (eps : ℕ → ℚ) : List ℚ :=
  match plxDist with
  | .SN => (List.range ns).map (fun i => env.exp (0.5637 + 0.8767 * eps i))
  | .Skymapper => (List.range ns).map (fun i => env.exp (-0.255 + 0.656 * eps i))
  | .const c => List.replicate ns c

/-- `np.arange(0.02, 0.21, 0.01)` (line 238): the 19 relative-error grid
points 0.02, 0.03, …, 0.20. -/
def relErrGrid : List ℚ := (List.range 19).map (fun i => (2 + (i : ℚ)) / 100)

/-- The drawn Skymapper relative parallax errors (lines 238-241): one grid
point per star, the choice per star taken from the integer stream `chi`. -/
def relErrOf (ns : ℕ) (chi : ℕ → ℕ) (kchi : ℕ) : List ℚ :=
  (List.range ns).map (fun i => relErrGrid.getD (chi (kchi + i) % relErrGrid.length) 0)

/-- The fixed data consulted by the observation loop. -/
structure ObsCtx where
  env : Env
  ns : ℕ
  /-- the names that are photometric bands, `set(known_filters) & set(obs_params)`. -/
  obsMags : List String
  plxDist : PlxDist
  /-- the true data, including the drawn `'plx'` column when present. -/
  td : List (String × List ℚ)
  /-- the true apparent magnitudes `true_data[mag] + mu_true` per band. -/
  appMags : List (String × List ℚ)
  /-- the stream of standard-normal deviates. -/
  eps : ℕ → ℚ
  /-- the integer stream driving `np.random.choice` for relative errors. -/
  chi : ℕ → ℕ

/-- The observation loop (lines 233-246): one column per requested
parameter, in request order, threading the positions `keps`/`kchi` consumed
from the random streams. `np.random.normal(0, s, ns)` is written as
`s * eps i` elementwise. -/
def obsLoop (c : ObsCtx) : List (String × ℚ) → ℕ → ℕ → List (String × List ℚ)
  | [], _, _ => []
  | (p, sig) :: rest, keps, kchi =>
      if p ∈ c.obsMags then
        let base := (List.lookup p c.appMags).getD []
        (p, (List.range c.ns).map (fun i => base.getD i 0 + sig * c.eps (keps + i)))
          :: obsLoop c rest (keps + c.ns) kchi
      else if p = "plx" ∧ c.plxDist = .Skymapper then
        let t := (List.lookup p c.td).getD []
        let rel := relErrOf c.ns c.chi kchi
        (p, (List.range c.ns).map
            (fun i => t.getD i 0 + t.getD i 0 * rel.getD i 0 * c.eps (keps + i)))
          :: obsLoop c rest (keps + c.ns) (kchi + c.ns)
      else
        let t := (List.lookup p c.td).getD []
        (p, (List.range c.ns).map (fun i => t.getD i 0 + sig * c.eps (keps + i)))
          :: obsLoop c rest (keps + c.ns) kchi

/-- `obs_mags = list(set(known_filters) & set(obs_params))` (line 188):
the requested parameter names that are photometric bands. -/
def obsMagsOf (obsParams : List (String × ℚ)) : List String :=
  (obsParams.map Prod.fst).filter (fun p => decide (p ∈ known_filters))

/-- The complete true dataset `true_data` after the parallax block
(lines 211-221): the loaded columns plus the drawn `'plx'` column when
parallax is requested. -/
def tdFull (env : Env) (ns : ℕ) (names : List String) (plxDist : PlxDist)
    (eps : ℕ → ℚ) (td0 : List (String × List ℚ)) : List (String × List ℚ) :=
  if "plx" ∈ names then td0 ++ [("plx", plxTrueOf env ns plxDist eps)] else td0

/-- The true distance moduli `mu_true = 5*np.log10(100/plx_true)` (line 224). -/
def muTrueOf (env : Env) (ns : ℕ) (plxDist : PlxDist) (eps : ℕ → ℚ) : List ℚ :=
  (plxTrueOf env ns plxDist eps).map (fun p => 5 * env.log10 (100 / p))

/-- How many standard-normal draws the parallax block consumes before the
observation loop starts: `ns` for the two survey policies when `'plx'` is
requested, none otherwise. -/
def kAfterPlxOf (ns : ℕ) (names : List String) (plxDist : PlxDist) : ℕ :=
  if "plx" ∈ names then
    match plxDist with
    | .const _ => 0
    | _ => ns
  else 0

/-- `make_synth_obs(synthfile, outputfile, obs_params, plx_distribution)`
(lines 160-246, up to the observed columns; the pandas layout of the output
file is not modelled):

1. fail if a photometric band is requested without `'plx'` (lines 188-190);
2. load the true values of every requested non-`'plx'` parameter
   (lines 197-206);
3. if `'plx'` is requested, draw the true parallaxes and derive the
   distance modulus `mu = 5*log10(100/plx)` and the apparent magnitudes
   (lines 211-227);
4. per requested parameter, add the Gaussian noise (lines 233-246). -/
def make_synth_obs (env : Env) (synth : List (String × List ℚ)) (ns : ℕ)
    (obsParams : List (String × ℚ)) (plxDist : PlxDist)
    (eps : ℕ → ℚ) (chi : ℕ → ℕ) : Except String (List (String × List ℚ)) :=
  let names := obsParams.map Prod.fst
  if obsMagsOf obsParams ≠ [] ∧ "plx" ∉ names then .error plxErrMsg
  else
    match loadTrue env synth names with
    | .error e => .error e
    | .ok td0 =>
        let td := tdFull env ns names plxDist eps td0
        let appMags := (obsMagsOf obsParams).map (fun mag =>
          (mag, (List.range ns).map
            (fun i => ((List.lookup mag td).getD []).getD i 0
              + (muTrueOf env ns plxDist eps).getD i 0)))
        .ok (obsLoop ⟨env, ns, obsMagsOf obsParams, plxDist, td, appMags, eps, chi⟩
          obsParams (kAfterPlxOf ns names plxDist) 0)

/-! ## Derived counting helpers -/

instance : Inhabited Star := ⟨⟨[], 0, 0⟩⟩

/-- The number of accepted stars carrying phase flag 1 (forced giants). -/
def phase1Count (stars : List Star) : ℕ :=
  stars.countP (fun s => decide (s.phase = 1))

/-- The phase flag that the policy of lines 108-116 assigns to the star
accepted at running count `k`. -/
def phaseAt (cfg : Config) (k : ℕ) : ℚ :=
  if (k : ℚ) < (cfg.ns : ℚ) * (1 - cfg.extraGiants) then 0 else 1

/-- A draw whose mass lands strictly inside the track in both phase
regimes, so that it is accepted no matter the current accepted count. -/
def acceptsAnyPhase (env : Env) (cfg : Config) (d : Draw) : Prop :=
  dwarfMinMass env cfg d * env.imfPow d.uMass < lastMassOf env cfg d ∧
  giantMinMass env cfg d * env.imfPow d.uMass < lastMassOf env cfg d

instance acceptsAnyPhaseDecidable (env : Env) (cfg : Config) (d : Draw) :
    Decidable (acceptsAnyPhase env cfg d) := by
  unfold acceptsAnyPhase; exact inferInstance

/-! ## The split-index selection as the spec describes it

The spec sentence for lines 101-104 reads "compute the sequence of
successive temperature differences along the track, take the 5 smallest
absolute differences, and use their median index". The following
definitions follow that sentence (ordering indices by the absolute value
of the difference) so that it can be compared against the code's
`split_ind`, which sorts by the signed difference. -/

/-- Ordering of indices by absolute difference value (ties by index). -/
def absRel (xs : List ℚ) (i j : ℕ) : Prop :=
  qabs (xs.getD i 0) < qabs (xs.getD j 0) ∨
    (qabs (xs.getD i 0) = qabs (xs.getD j 0) ∧ i ≤ j)

instance absRelDecidable (xs : List ℚ) : DecidableRel (absRel xs) := fun i j => by
  unfold absRel; exact inferInstance

/-- Argsort by absolute value, per the spec's words. -/
def argsortAbs (xs : List ℚ) : List ℕ :=
  List.insertionSort (absRel xs) (List.range xs.length)

/-- The split index as the spec's sentence describes it: the median of the
indices of the 5 smallest ABSOLUTE successive differences. -/
def split_ind_specAbs (temps : List ℚ) : ℕ :=
  npMedianNat ((argsortAbs (npDiff temps)).take 5)

/-! ## Concrete fixtures used to instantiate the theorems -/

/-- A small concrete seven-node track: masses ascending, temperatures
descending. -/
def trackW : Track :=
  ⟨[("Mini", [1, 2, 3, 4, 5, 6, 7]), ("logT", [10, 8, 6, 4, 3, 2, 1])]⟩

/-- A concrete environment whose grid always answers with `trackW` and
whose transcendental maps are trivial instantiations. -/
def envW : Env :=
  { grid := fun _ _ => (trackW, (0, 0, 5)),
    gridParams := ["Mini", "logT"],
    pow10 := id,
    imfPow := fun _ => 1,
    exp := fun _ => 1,
    log10 := fun _ => 1 }

/-- A single-burst configuration asking for 2 stars, no forced giants. -/
def cfgW : Config :=
  { tBursts := .single 1 10 1, ns := 2, fehMean := 0, fehDisp := 0, extraGiants := 0 }

/-- A configuration asking for 4 stars, half of them forced giants. -/
def cfgW4 : Config :=
  { tBursts := .single 1 10 1, ns := 4, fehMean := 0, fehDisp := 0, extraGiants := 1/2 }

/-- A configuration asking for 10 stars with giant-forcing fraction 1/4. -/
def cfgC2 : Config :=
  { tBursts := .single 1 10 1, ns := 10, fehMean := 0, fehDisp := 0, extraGiants := 1/4 }

/-- A fixed draw record. -/
def drawW : Draw := ⟨0, 0, 0, 0⟩

/-- The node-temperature array of the track used to separate the code's
split-index selection from the spec's description of it: successive
differences [-100, -90, -80, 1, 2, 3, 50, 60]. -/
def tsC1 : List ℚ := [200, 100, 10, -70, -69, -67, -64, -14, 46]

/-- An environment whose track realizes the temperatures `tsC1`. -/
def envC1 : Env :=
  { grid := fun _ _ => (⟨[("logT", tsC1)]⟩, (0, 0, 0)),
    gridParams := ["logT"],
    pow10 := id,
    imfPow := fun _ => 1,
    exp := fun _ => 1,
    log10 := fun _ => 1 }

/-- An environment for the observation-simulator claims, with trivial
instantiations of the transcendental maps. -/
def envObs : Env :=
  { grid := fun _ _ => (⟨[]⟩, (0, 0, 0)),
    gridParams := [],
    pow10 := id,
    imfPow := fun _ => 1,
    exp := fun _ => 1,
    log10 := fun _ => 1 }

/-! ## Theorems -/

/-- Claim C3, corrected. The claim says a burst array that is neither 1-D
nor 2-D is detected as a configuration error before the sampling loop
begins. In fact only shapes on which the weights extraction
`t_bursts[:, 2]` raises (0-D arrays, or arrays whose second axis is shorter
than 3) fail before the loop; an array of 3 or more dimensions with a long
enough second axis passes the pre-loop setup and fails only at the first
age draw inside the loop (`np.random.choice` rejecting a non-1-D `p`).
What holds for every malformed shape is the disjunction: the run fails
either before the loop or at the first draw of the first iteration, in
both cases before any star is sampled. -/
theorem malformed_burst_fails_before_any_star (shape : List ℕ)
    (h1 : shape.length ≠ 1) (h2 : shape.length ≠ 2) :
    failsBeforeLoop shape = true ∨ failsAtFirstDraw shape = true := by
  by_cases hidx : 2 ≤ shape.length ∧ 2 < shape.getD 1 0
  · right
    unfold failsAtFirstDraw burstPreLoop
    rw [if_neg h1, if_pos hidx]
    simp [List.length_drop]
    omega
  · left
    unfold failsBeforeLoop burstPreLoop
    rw [if_neg h1, if_neg hidx]
    rfl

/-- Claim C3, counterexample to the claim as stated: the 3-D shape
`(2, 3, 4)` is neither 1-D nor 2-D, yet the pre-loop setup succeeds
(`t_bursts[:, 2]` yields a (2, 4)-shaped weights array), so the failure
happens only at the first draw inside the sampling loop, not before the
loop begins. -/
theorem malformed_3d_burst_passes_preloop :
    ([2, 3, 4] : List ℕ).length = 3 ∧
    failsBeforeLoop [2, 3, 4] = false ∧ failsAtFirstDraw [2, 3, 4] = true := by
  decide

/-- Witness for `malformed_burst_fails_before_any_star` at the concrete
shape `(2, 3, 4)`. -/
theorem malformed_burst_fails_witness :
    (([2, 3, 4] : List ℕ).length ≠ 1 ∧ ([2, 3, 4] : List ℕ).length ≠ 2) ∧
    (failsBeforeLoop [2, 3, 4] = true ∨ failsAtFirstDraw [2, 3, 4] = true) :=
  ⟨by decide, malformed_burst_fails_before_any_star [2, 3, 4] (by decide) (by decide)⟩

/-- Claim C7, confirmed: if any requested parameter is a known photometric
band and `'plx'` is not also requested, `make_synth_obs` fails with the
schema error of line 190; the failure is independent of (and so happens
before consuming) the noise streams `eps`/`chi`, which are universally
quantified here. -/
theorem make_synth_obs_band_requires_plx (env : Env) (synth : List (String × List ℚ))
    (ns : ℕ) (obsParams : List (String × ℚ)) (plxDist : PlxDist)
    (eps : ℕ → ℚ) (chi : ℕ → ℕ) (b : String)
    (hb : b ∈ obsParams.map Prod.fst) (hbf : b ∈ known_filters)
    (hplx : "plx" ∉ obsParams.map Prod.fst) :
    make_synth_obs env synth ns obsParams plxDist eps chi = .error plxErrMsg := by
  have hmem : b ∈ obsMagsOf obsParams := List.mem_filter.mpr ⟨hb, by simp [hbf]⟩
  have hcond : obsMagsOf obsParams ≠ [] ∧ "plx" ∉ obsParams.map Prod.fst :=
    ⟨List.ne_nil_of_mem hmem, hplx⟩
  simp only [make_synth_obs]
  rw [if_pos hcond]

/-- Witness for `make_synth_obs_band_requires_plx`: requesting the Gaia
`G` band without `'plx'`. -/
theorem make_synth_obs_band_requires_plx_witness :
    ("G" ∈ ([("G", (1 : ℚ)/10)].map Prod.fst) ∧ "G" ∈ known_filters ∧
      "plx" ∉ ([("G", (1 : ℚ)/10)].map Prod.fst)) ∧
    make_synth_obs envObs [] 5 [("G", (1 : ℚ)/10)] (.const 1)
      (fun _ => 0) (fun _ => 0) = .error plxErrMsg :=
  ⟨by decide,
    make_synth_obs_band_requires_plx envObs [] 5 [("G", (1 : ℚ)/10)] (.const 1)
      (fun _ => 0) (fun _ => 0) "G" (by decide) (by decide) (by decide)⟩

/-- Claim C9, confirmed: `np.random.seed(rand_seed)` (line 55) makes the
whole draw sequence a function of the seed, so two runs of
`generate_synth_stars` with the same seed and the same inputs produce
identical states and in particular bit-identical `Star` sequences. In this
embedding the seeded generator is an explicit deterministic stream, so the
run is a pure function of (environment, configuration, seed). -/
theorem generate_synth_stars_deterministic (env : Env) (cfg : Config)
    (s1 s2 fuel : ℕ) (h : s1 = s2) :
    generate_synth_stars env cfg s1 fuel = generate_synth_stars env cfg s2 fuel ∧
    (generate_synth_stars env cfg s1 fuel).stars =
      (generate_synth_stars env cfg s2 fuel).stars := by
  subst h
  exact ⟨rfl, rfl⟩

/-- Witness for `generate_synth_stars_deterministic` at seed 1. -/
theorem generate_synth_stars_deterministic_witness :
    (1 = 1) ∧
    (generate_synth_stars envW cfgW 1 3 = generate_synth_stars envW cfgW 1 3 ∧
      (generate_synth_stars envW cfgW 1 3).stars =
        (generate_synth_stars envW cfgW 1 3).stars) :=
  ⟨rfl, generate_synth_stars_deterministic envW cfgW 1 1 3 rfl⟩

/-- Helper: a list of nonnegative rationals has nonnegative `getD` with
default 0. -/
theorem getD_nonneg (xs : List ℚ) (i : ℕ) (h : ∀ x ∈ xs, 0 ≤ x) :
    0 ≤ xs.getD i 0 := by
  rcases Nat.lt_or_ge i xs.length with hi | hi
  · rw [List.getD_eq_getElem xs 0 hi]
    exact h _ (xs.getElem_mem hi)
  · rw [List.getD_eq_default xs 0 hi]

/-- Helper: in a list sorted by `≤`, every element is at most the last
element. -/
theorem sorted_le_lastD (xs : List ℚ) (hs : xs.Sorted (· ≤ ·)) :
    ∀ x ∈ xs, x ≤ (xs.getLast?).getD 0 := by
  induction xs with
  | nil => simp
  | cons a rest ih =>
    intro x hx
    rcases rest with _ | ⟨b, rest'⟩
    · simp only [List.mem_singleton] at hx
      subst hx
      simp [List.getLast?]
    · rw [List.getLast?_cons_cons]
      have hcons := List.sorted_cons.mp hs
      have hne : (b :: rest') ≠ [] := by simp
      rcases List.mem_cons.mp hx with rfl | hx'
      · rw [List.getLast?_eq_getLast _ hne]
        simpa using hcons.1 _ (List.getLast_mem hne)
      · exact ih hcons.2 x hx'

/-- Helper: a draw accepted in both phase regimes has `m < q_mass[-1]`
whatever the running accepted count is. -/
theorem accepts_mOf_lt (env : Env) (cfg : Config) (d : Draw)
    (h : acceptsAnyPhase env cfg d) (iv : ℕ) :
    mOf env cfg iv d < lastMassOf env cfg d := by
  unfold mOf minMassOf
  split
  · exact h.1
  · exact h.2

/-- Claim C4, confirmed: a candidate draw is accepted — a star is recorded
and the accepted count advances — iff its drawn mass `m` is strictly below
`q_mass[-1]` (which, the mass column being sorted, is the track's maximum
initial mass); otherwise nothing is recorded and the rejection counter
advances. For an accepted draw, `m_min ≤ m` also holds, since the IMF
transform satisfies `u**(-1/(alpha-1)) ≥ 1` on `0 < u < 1` for
`alpha > 1` (hypothesis `himf`) and the track masses are nonnegative. -/
theorem step_accept_iff (env : Env) (cfg : Config) (st : SState) (d : Draw)
    (hsorted : ((trackOf env cfg d).col "Mini").Sorted (· ≤ ·))
    (hpos : ∀ x ∈ (trackOf env cfg d).col "Mini", 0 ≤ x)
    (himf : ∀ u : ℚ, 0 < u → u < 1 → 1 ≤ env.imfPow u)
    (hu0 : 0 < d.uMass) (hu1 : d.uMass < 1) :
    (∀ x ∈ (trackOf env cfg d).col "Mini", x ≤ lastMassOf env cfg d) ∧
    (mOf env cfg st.iv d < lastMassOf env cfg d →
      step env cfg st d =
        ⟨st.iv + 1, st.ne, st.stars ++ [starOf env cfg st.iv d]⟩ ∧
      (minMassOf env cfg st.iv d).1 ≤ mOf env cfg st.iv d) ∧
    (¬ mOf env cfg st.iv d < lastMassOf env cfg d →
      step env cfg st d = ⟨st.iv, st.ne + 1, st.stars⟩) := by
  refine ⟨sorted_le_lastD _ hsorted, fun hacc => ⟨?_, ?_⟩, fun hrej => ?_⟩
  · unfold step
    rw [if_pos hacc]
  · have h1 : 1 ≤ env.imfPow d.uMass := himf _ hu0 hu1
    have h0 : 0 ≤ (minMassOf env cfg st.iv d).1 := by
      unfold minMassOf dwarfMinMass giantMinMass
      split <;> exact getD_nonneg _ _ hpos
    unfold mOf
    exact le_mul_of_one_le_right h0 h1
  · unfold step
    rw [if_neg hrej]

/-- A draw whose IMF variate lies strictly inside (0, 1). -/
def drawW2 : Draw := ⟨0, 0, 0, 1/2⟩

/-- Witness for `step_accept_iff` on the concrete seven-node track. -/
theorem step_accept_iff_witness :
    ((0 : ℚ) < drawW2.uMass ∧ drawW2.uMass < 1) ∧
    ((∀ x ∈ (trackOf envW cfgW drawW2).col "Mini", x ≤ lastMassOf envW cfgW drawW2) ∧
    (mOf envW cfgW initState.iv drawW2 < lastMassOf envW cfgW drawW2 →
      step envW cfgW initState drawW2 =
        ⟨initState.iv + 1, initState.ne,
          initState.stars ++ [starOf envW cfgW initState.iv drawW2]⟩ ∧
      (minMassOf envW cfgW initState.iv drawW2).1 ≤ mOf envW cfgW initState.iv drawW2) ∧
    (¬ mOf envW cfgW initState.iv drawW2 < lastMassOf envW cfgW drawW2 →
      step envW cfgW initState drawW2 = ⟨initState.iv, initState.ne + 1, initState.stars⟩)) :=
  ⟨by with_unfolding_all decide,
    step_accept_iff envW cfgW initState drawW2 (by with_unfolding_all decide)
      (by with_unfolding_all decide)
      (fun _ _ _ => le_refl 1) (by with_unfolding_all decide) (by with_unfolding_all decide)⟩

/-- Helper: the loop reaches exactly `ns` accepted stars when fed at least
`ns` draws each of which is accepted in either phase regime. -/
theorem runLoop_fills (env : Env) (cfg : Config) :
    ∀ (draws : List Draw) (st : SState),
      st.stars.length = st.iv → st.iv ≤ cfg.ns → cfg.ns ≤ st.iv + draws.length →
      (∀ d ∈ draws, acceptsAnyPhase env cfg d) →
      (runLoop env cfg draws st).iv = cfg.ns ∧
        (runLoop env cfg draws st).stars.length = cfg.ns := by
  intro draws
  induction draws with
  | nil =>
    intro st hlen hle hge _
    simp only [runLoop, List.length_nil, Nat.add_zero] at *
    omega
  | cons d ds ih =>
    intro st hlen hle hge hacc
    simp only [runLoop]
    by_cases hlt : st.iv < cfg.ns
    · rw [if_pos hlt]
      have hstep : step env cfg st d =
          ⟨st.iv + 1, st.ne, st.stars ++ [starOf env cfg st.iv d]⟩ := by
        unfold step
        rw [if_pos (accepts_mOf_lt env cfg d (hacc d (by simp)) st.iv)]
      rw [hstep]
      refine ih _ ?_ ?_ ?_ ?_
      · show (st.stars ++ [starOf env cfg st.iv d]).length = st.iv + 1
        simp [hlen]
      · show st.iv + 1 ≤ cfg.ns
        omega
      · show cfg.ns ≤ st.iv + 1 + ds.length
        simp only [List.length_cons] at hge
        omega
      · intro d' hd'
        exact hacc d' (by simp [hd'])
    · rw [if_neg hlt]
      constructor <;> omega

/-- Claim C6, confirmed: when the stream supplies at least `ns` draws each
of which lands strictly inside its track's mass range (the "satisfiable
mass floor" of a valid configuration), the sampling loop terminates with
exactly `ns` accepted `Star` records — the accepted count advances only on
acceptance and the loop stops exactly at `ns`. -/
theorem runGen_returns_exactly_ns (env : Env) (cfg : Config) (draws : List Draw)
    (hlen : cfg.ns ≤ draws.length)
    (hacc : ∀ d ∈ draws, acceptsAnyPhase env cfg d) :
    (runGen env cfg draws).iv = cfg.ns ∧ (runGen env cfg draws).stars.length = cfg.ns :=
  runLoop_fills env cfg draws initState rfl (Nat.zero_le _)
    (by simpa [initState] using hlen) hacc

/-- Witness for `runGen_returns_exactly_ns`: two always-accepting draws
fill the two requested slots. -/
theorem runGen_returns_exactly_ns_witness :
    (cfgW.ns ≤ ([drawW, drawW] : List Draw).length ∧
      ∀ d ∈ ([drawW, drawW] : List Draw), acceptsAnyPhase envW cfgW d) ∧
    ((runGen envW cfgW [drawW, drawW]).iv = cfgW.ns ∧
      (runGen envW cfgW [drawW, drawW]).stars.length = cfgW.ns) :=
  ⟨⟨by decide, by with_unfolding_all decide⟩,
    runGen_returns_exactly_ns envW cfgW [drawW, drawW] (by decide)
      (by with_unfolding_all decide)⟩

/-- Helper: filtering the range of `n` by a bound `k ≤ n` gives the range
of `k`. -/
theorem filter_range_lt (k : ℕ) : ∀ n, k ≤ n →
    (List.range n).filter (fun i => decide (i < k)) = List.range k := by
  intro n
  induction n with
  | zero =>
    intro h
    have hk0 : k = 0 := Nat.le_zero.mp h
    subst hk0
    rfl
  | succ m ih =>
    intro h
    rw [List.range_succ, List.filter_append]
    rcases Nat.lt_or_ge k (m + 1) with hlt | hge
    · have hk : k ≤ m := by omega
      rw [ih hk]
      have hm : (List.filter (fun i => decide (i < k)) [m]) = [] := by
        simp
        omega
      rw [hm, List.append_nil]
    · have hk : k = m + 1 := by omega
      subst hk
      have h1 : (List.range m).filter (fun i => decide (i < m + 1)) = List.range m :=
        List.filter_eq_self.mpr (fun a ha => by
          simp only [decide_eq_true_eq]
          exact Nat.lt_succ_of_lt (List.mem_range.mp ha))
      have h2 : (List.filter (fun i => decide (i < m + 1)) [m]) = [m] := by
        simp
      rw [h1, h2, ← List.range_succ]

/-- Helper: the bracketing indices around a value `m` lying strictly inside
a sorted nonempty list: the first index with value above `m` is the
successor of the last index with value at most `m`, and the two bracket
`m`. -/
theorem lastLe_firstGt (xs : List ℚ) (m : ℚ) (hs : xs.Sorted (· ≤ ·))
    (hne : xs ≠ []) (hlo : xs.getD 0 0 ≤ m) (hhi : m < (xs.getLast?).getD 0) :
    firstGt xs m < xs.length ∧ 1 ≤ firstGt xs m ∧
    lastLe xs m + 1 = firstGt xs m ∧
    xs.getD (lastLe xs m) 0 ≤ m ∧ m < xs.getD (firstGt xs m) 0 := by
  have hlen0 : 0 < xs.length := List.length_pos.mpr hne
  -- the last element witnesses an index with value > m
  have hlast_mem : xs.getLast hne ∈ xs := List.getLast_mem hne
  have hlast_gt : m < xs.getLast hne := by
    rwa [List.getLast?_eq_getLast _ hne, Option.getD_some] at hhi
  have hk_lt : firstGt xs m < xs.length := by
    unfold firstGt
    exact List.findIdx_lt_length.mpr ⟨_, hlast_mem, by simpa using hlast_gt⟩
  have hk_at : m < xs.getD (firstGt xs m) 0 := by
    rw [List.getD_eq_getElem xs 0 hk_lt]
    have hx := @List.findIdx_getElem ℚ (fun x => decide (m < x)) xs hk_lt
    simpa using hx
  have hk_pos : 1 ≤ firstGt xs m := by
    by_contra hcon
    have hk0 : firstGt xs m = 0 := by omega
    rw [hk0] at hk_at
    exact absurd (lt_of_le_of_lt hlo hk_at) (lt_irrefl _)
  -- indices strictly below firstGt carry values ≤ m
  have hbelow : ∀ i, i < firstGt xs m → xs.getD i 0 ≤ m := by
    intro i hi
    have hilen : i < xs.length := by omega
    rw [List.getD_eq_getElem xs 0 hilen]
    have hx := @List.not_of_lt_findIdx ℚ (fun x => decide (m < x)) xs i hi
    simpa using hx
  -- indices at or above firstGt carry values > m
  have habove : ∀ i, i < xs.length → firstGt xs m ≤ i → m < xs.getD i 0 := by
    intro i hi hge
    rcases Nat.eq_or_lt_of_le hge with heq | hlt
    · rw [← heq]
      exact hk_at
    · have hrel := List.Sorted.rel_get_of_lt hs
        (a := ⟨firstGt xs m, hk_lt⟩) (b := ⟨i, hi⟩) (by simpa using hlt)
      simp only [List.get_eq_getElem] at hrel
      rw [List.getD_eq_getElem xs 0 hk_lt] at hk_at
      rw [List.getD_eq_getElem xs 0 hi]
      exact lt_of_lt_of_le hk_at hrel
  -- the filtered index list of lastLe is the initial segment below firstGt
  have hfilter : (List.range xs.length).filter
      (fun i => decide (xs.getD i 0 ≤ m)) = List.range (firstGt xs m) := by
    rw [List.filter_congr (q := fun i => decide (i < firstGt xs m))]
    · exact filter_range_lt _ _ (le_of_lt hk_lt)
    · intro i hi
      have hi' : i < xs.length := List.mem_range.mp hi
      simp only [decide_eq_decide]
      rcases Nat.lt_or_ge i (firstGt xs m) with hik | hik
      · exact iff_of_true (hbelow i hik) hik
      · exact iff_of_false (not_le.mpr (habove i hi' hik)) (by omega)
  have him : lastLe xs m = firstGt xs m - 1 := by
    unfold lastLe
    rw [hfilter]
    have hsplit : List.range (firstGt xs m)
        = List.range (firstGt xs m - 1) ++ [firstGt xs m - 1] := by
      have hrw : (firstGt xs m - 1).succ = firstGt xs m := by omega
      rw [← List.range_succ, hrw]
    rw [hsplit, List.getLastD_concat]
  refine ⟨hk_lt, hk_pos, by omega, ?_, hk_at⟩
  rw [him]
  exact hbelow _ (by omega)

/-- Helper: a convex combination with weight in [0, 1] lies between the
two endpoints. -/
theorem convex_combo_between (a b h : ℚ) (h0 : 0 ≤ h) (h1 : h ≤ 1) :
    min a b ≤ (1 - h) * a + h * b ∧ (1 - h) * a + h * b ≤ max a b := by
  rcases le_total a b with hab | hab
  · rw [min_eq_left hab, max_eq_right hab]
    constructor <;> nlinarith
  · rw [min_eq_right hab, max_eq_left hab]
    constructor <;> nlinarith

/-- Helper: looking up a name in the tabulation of a function over a name
list returns the function value. -/
theorem lookup_map_self {β : Type} (f : String → β) (ps : List String) (p : String)
    (hp : p ∈ ps) :
    List.lookup p (ps.map (fun q => (q, f q))) = some (f p) := by
  induction ps with
  | nil => cases hp
  | cons q rest ih =>
    rw [List.map_cons]
    by_cases hpq : p = q
    · subst hpq
      simp [List.lookup_cons]
    · have hbeq : (p == q) = false := beq_eq_false_iff_ne.mpr hpq
      rw [List.lookup_cons, hbeq]
      exact ih (by
        rcases List.mem_cons.mp hp with h | h
        · exact absurd h hpq
        · exact h)

/-- Claim C5, confirmed: on acceptance every tracked parameter is recorded
as the linear interpolation `(1-h)*q[param][im] + h*q[param][ip]` with
`h = (m - q_mass[im]) / (q_mass[ip] - q_mass[im])`, where `im` is the last
node with mass `≤ m` and `ip = im + 1` is the next node (the mass column
being sorted and `m` lying strictly inside it); consequently every
interpolated value lies between the two bracketing node values,
inclusive. -/
theorem interpolation_between_brackets (env : Env) (cfg : Config) (iv : ℕ) (d : Draw)
    (hs : ((trackOf env cfg d).col "Mini").Sorted (· ≤ ·))
    (hne : (trackOf env cfg d).col "Mini" ≠ [])
    (hlo : ((trackOf env cfg d).col "Mini").getD 0 0 ≤ mOf env cfg iv d)
    (hhi : mOf env cfg iv d < lastMassOf env cfg d) :
    ipOf env cfg iv d = imOf env cfg iv d + 1 ∧
    ipOf env cfg iv d < ((trackOf env cfg d).col "Mini").length ∧
    ((trackOf env cfg d).col "Mini").getD (imOf env cfg iv d) 0 ≤ mOf env cfg iv d ∧
    mOf env cfg iv d < ((trackOf env cfg d).col "Mini").getD (ipOf env cfg iv d) 0 ∧
    ∀ p ∈ env.gridParams,
      List.lookup p (starOf env cfg iv d).vals = some (interpValOf env cfg iv d p) ∧
      min (((trackOf env cfg d).col p).getD (imOf env cfg iv d) 0)
          (((trackOf env cfg d).col p).getD (ipOf env cfg iv d) 0)
        ≤ interpValOf env cfg iv d p ∧
      interpValOf env cfg iv d p ≤
        max (((trackOf env cfg d).col p).getD (imOf env cfg iv d) 0)
          (((trackOf env cfg d).col p).getD (ipOf env cfg iv d) 0) := by
  obtain ⟨hk_lt, hk_pos, hsucc, hbelow, habove⟩ :=
    lastLe_firstGt ((trackOf env cfg d).col "Mini") (mOf env cfg iv d) hs hne hlo hhi
  have hbelow' : ((trackOf env cfg d).col "Mini").getD (imOf env cfg iv d) 0
      ≤ mOf env cfg iv d := hbelow
  have habove' : mOf env cfg iv d
      < ((trackOf env cfg d).col "Mini").getD (ipOf env cfg iv d) 0 := habove
  have hip : ipOf env cfg iv d = imOf env cfg iv d + 1 := by
    unfold ipOf imOf
    omega
  have hiplen : ipOf env cfg iv d < ((trackOf env cfg d).col "Mini").length := hk_lt
  have hweight : 0 ≤ hOf env cfg iv d ∧ hOf env cfg iv d ≤ 1 := by
    unfold hOf
    have hab : ((trackOf env cfg d).col "Mini").getD (imOf env cfg iv d) 0
        < ((trackOf env cfg d).col "Mini").getD (ipOf env cfg iv d) 0 :=
      lt_of_le_of_lt hbelow' habove'
    constructor
    · apply div_nonneg
      · exact sub_nonneg.mpr hbelow'
      · exact sub_nonneg.mpr (le_of_lt hab)
    · rw [div_le_one (by linarith)]
      linarith [le_of_lt habove']
  refine ⟨hip, hiplen, hbelow', habove', fun p hp => ?_⟩
  refine ⟨?_, ?_⟩
  · show List.lookup p (env.gridParams.map fun q => (q, interpValOf env cfg iv d q))
      = some (interpValOf env cfg iv d p)
    exact lookup_map_self _ _ _ hp
  · exact convex_combo_between _ _ _ hweight.1 hweight.2

/-- Witness for `interpolation_between_brackets` on the concrete
seven-node track. -/
theorem interpolation_between_brackets_witness :
    (((trackOf envW cfgW drawW).col "Mini").Sorted (· ≤ ·) ∧
      ((trackOf envW cfgW drawW).col "Mini").getD 0 0 ≤ mOf envW cfgW 0 drawW ∧
      mOf envW cfgW 0 drawW < lastMassOf envW cfgW drawW) ∧
    (ipOf envW cfgW 0 drawW = imOf envW cfgW 0 drawW + 1 ∧
    ipOf envW cfgW 0 drawW < ((trackOf envW cfgW drawW).col "Mini").length ∧
    ((trackOf envW cfgW drawW).col "Mini").getD (imOf envW cfgW 0 drawW) 0
      ≤ mOf envW cfgW 0 drawW ∧
    mOf envW cfgW 0 drawW
      < ((trackOf envW cfgW drawW).col "Mini").getD (ipOf envW cfgW 0 drawW) 0 ∧
    ∀ p ∈ envW.gridParams,
      List.lookup p (starOf envW cfgW 0 drawW).vals
        = some (interpValOf envW cfgW 0 drawW p) ∧
      min (((trackOf envW cfgW drawW).col p).getD (imOf envW cfgW 0 drawW) 0)
          (((trackOf envW cfgW drawW).col p).getD (ipOf envW cfgW 0 drawW) 0)
        ≤ interpValOf envW cfgW 0 drawW p ∧
      interpValOf envW cfgW 0 drawW p ≤
        max (((trackOf envW cfgW drawW).col p).getD (imOf envW cfgW 0 drawW) 0)
          (((trackOf envW cfgW drawW).col p).getD (ipOf envW cfgW 0 drawW) 0)) :=
  ⟨⟨by decide, by with_unfolding_all decide, by with_unfolding_all decide⟩,
    interpolation_between_brackets envW cfgW 0 drawW (by decide) (by decide)
      (by with_unfolding_all decide) (by with_unfolding_all decide)⟩

/-- Helper: the phase flag recorded by an accepting iteration is exactly
the policy flag of the accepted count at that moment. -/
theorem starOf_phase (env : Env) (cfg : Config) (iv : ℕ) (d : Draw) :
    (starOf env cfg iv d).phase = phaseAt cfg iv := by
  show (minMassOf env cfg iv d).2 = phaseAt cfg iv
  unfold minMassOf phaseAt
  by_cases h : (iv : ℚ) < (cfg.ns : ℚ) * (1 - cfg.extraGiants)
  · rw [if_pos h, if_pos h]
  · rw [if_neg h, if_neg h]

/-- The loop invariant tying the accepted list to the accepted count: one
star per accepted draw, each carrying the policy phase flag of its
position. -/
def goodState (cfg : Config) (st : SState) : Prop :=
  st.stars.length = st.iv ∧
  ∀ k, k < st.iv → (st.stars.getD k default).phase = phaseAt cfg k

/-- Helper: one loop iteration preserves the invariant. -/
theorem step_good (env : Env) (cfg : Config) (st : SState) (d : Draw)
    (h : goodState cfg st) : goodState cfg (step env cfg st d) := by
  obtain ⟨hlen, hph⟩ := h
  unfold step
  by_cases hacc : mOf env cfg st.iv d < lastMassOf env cfg d
  · rw [if_pos hacc]
    constructor
    · show (st.stars ++ [starOf env cfg st.iv d]).length = st.iv + 1
      simp [hlen]
    · show ∀ k, k < st.iv + 1 →
        (((st.stars ++ [starOf env cfg st.iv d]).getD k default)).phase = phaseAt cfg k
      intro k hk
      rcases Nat.lt_or_ge k st.iv with hk' | hk'
      · rw [List.getD_append _ _ _ _ (by omega)]
        exact hph k hk'
      · have hkeq : k = st.iv := by omega
        subst hkeq
        rw [List.getD_append_right _ _ _ _ (by omega), hlen, Nat.sub_self]
        simpa using starOf_phase env cfg st.iv d
  · rw [if_neg hacc]
    exact ⟨hlen, hph⟩

/-- Helper: the whole loop preserves the invariant. -/
theorem runLoop_good (env : Env) (cfg : Config) :
    ∀ (draws : List Draw) (st : SState),
      goodState cfg st → goodState cfg (runLoop env cfg draws st) := by
  intro draws
  induction draws with
  | nil => intro st h; exact h
  | cons d ds ih =>
    intro st h
    simp only [runLoop]
    by_cases hlt : st.iv < cfg.ns
    · rw [if_pos hlt]
      exact ih _ (step_good env cfg st d h)
    · rw [if_neg hlt]
      exact h

/-- Helper: among the first `n` naturals, exactly `n - c` lie at or above
the cut `c`. -/
theorem countP_range_ge (c : ℕ) : ∀ n,
    (List.range n).countP (fun k => decide (c ≤ k)) = n - c := by
  intro n
  induction n with
  | zero =>
    simp only [List.range_zero, List.countP_nil]
    omega
  | succ m ih =>
    rw [List.range_succ, List.countP_append, ih, List.countP_cons, List.countP_nil]
    by_cases h : c ≤ m <;> simp [h] <;> omega

/-- Helper: a star list satisfying the positional phase law has its
phase-1 count determined by the phase law alone. -/
theorem phase1Count_of_phases (cfg : Config) (l : List Star)
    (h : ∀ k, k < l.length → (l.getD k default).phase = phaseAt cfg k) :
    phase1Count l = (List.range l.length).countP (fun k => decide (phaseAt cfg k = 1)) := by
  induction l using List.reverseRecOn with
  | nil => rfl
  | append_singleton l a ih =>
    have hl : ∀ k, k < l.length → (l.getD k default).phase = phaseAt cfg k := by
      intro k hk
      have hx := h k (by simp only [List.length_append, List.length_singleton]; omega)
      rwa [List.getD_append _ _ _ _ hk] at hx
    have ha : a.phase = phaseAt cfg l.length := by
      have hx := h l.length (by simp)
      rwa [List.getD_append_right _ _ _ _ (le_refl _), Nat.sub_self] at hx
    unfold phase1Count at ih ⊢
    rw [List.countP_append, List.length_append, List.length_singleton,
      List.range_succ, List.countP_append, ih hl]
    simp [List.countP_cons, ha]

/-- Helper: how many of the first `n` positions lie at or beyond a
nonnegative rational threshold `t`. -/
theorem countP_range_threshold (n : ℕ) (t : ℚ) :
    (List.range n).countP (fun (k : ℕ) => decide (¬ ((k : ℚ) < t))) = n - (⌈t⌉).toNat := by
  rw [List.countP_congr (q := fun (k : ℕ) => decide ((⌈t⌉).toNat ≤ k))]
  · exact countP_range_ge _ n
  · intro k _
    simp only [decide_eq_true_eq, not_lt]
    rw [Int.toNat_le, Int.ceil_le]
    constructor <;> intro h
    · exact_mod_cast h
    · exact_mod_cast h

/-- Claim C2, corrected. The running-count threshold `iv < ns*(1-g)`
(line 108) indeed forces exactly the tail of the accepted sequence to
phase flag 1 — star `k` carries flag 1 iff `k ≥ ns*(1-g)` — but the
resulting number of flagged stars is `floor(ns*g)`, not `ceil(ns*g)`: for
`ns = 50`, `g = 0.2` the two agree (the last 10 accepted draws are
giants), while for fractional `ns*g` the code yields the floor. -/
theorem phase1_count_floor (env : Env) (cfg : Config) (draws : List Draw)
    (hg0 : 0 ≤ cfg.extraGiants) (hg1 : cfg.extraGiants ≤ 1)
    (hdone : (runGen env cfg draws).iv = cfg.ns) :
    (phase1Count (runGen env cfg draws).stars : ℤ)
        = ⌊(cfg.ns : ℚ) * cfg.extraGiants⌋ ∧
    (runGen env cfg draws).stars.length = cfg.ns ∧
    ∀ k, k < cfg.ns →
      ((runGen env cfg draws).stars.getD k default).phase
        = (if (k : ℚ) < (cfg.ns : ℚ) * (1 - cfg.extraGiants) then 0 else 1) := by
  have hgood : goodState cfg (runGen env cfg draws) :=
    runLoop_good env cfg draws initState
      ⟨rfl, fun k hk => absurd hk (Nat.not_lt_zero k)⟩
  obtain ⟨hlen, hph⟩ := hgood
  rw [hdone] at hlen
  refine ⟨?_, hlen, ?_⟩
  · have hcount := phase1Count_of_phases cfg (runGen env cfg draws).stars
      (fun k hk => hph k (by omega))
    rw [hlen] at hcount
    rw [hcount]
    have hcong : ∀ k ∈ List.range cfg.ns,
        (decide (phaseAt cfg k = 1)) = true ↔
        ((fun (k : ℕ) => decide (¬ ((k : ℚ) < (cfg.ns : ℚ) * (1 - cfg.extraGiants)))) k) = true := by
      intro k _
      unfold phaseAt
      by_cases h : (k : ℚ) < (cfg.ns : ℚ) * (1 - cfg.extraGiants)
      · simp [h]
      · simp [h]
    rw [List.countP_congr hcong]
    have hns0 : (0 : ℚ) ≤ (cfg.ns : ℚ) := Nat.cast_nonneg _
    have ht0 : 0 ≤ (cfg.ns : ℚ) * (1 - cfg.extraGiants) :=
      mul_nonneg hns0 (by linarith)
    rw [countP_range_threshold]
    have hceil : ⌈(cfg.ns : ℚ) * (1 - cfg.extraGiants)⌉
        = (cfg.ns : ℤ) - ⌊(cfg.ns : ℚ) * cfg.extraGiants⌋ := by
      have hrw : (cfg.ns : ℚ) * (1 - cfg.extraGiants)
          = -((cfg.ns : ℚ) * cfg.extraGiants) + ((cfg.ns : ℤ) : ℚ) := by
        push_cast
        ring
      rw [hrw, Int.ceil_add_int, Int.ceil_neg]
      ring
    have hfl0 : 0 ≤ ⌊(cfg.ns : ℚ) * cfg.extraGiants⌋ :=
      Int.floor_nonneg.mpr (mul_nonneg hns0 hg0)
    have hflns : ⌊(cfg.ns : ℚ) * cfg.extraGiants⌋ ≤ (cfg.ns : ℤ) := by
      have hle : (cfg.ns : ℚ) * cfg.extraGiants ≤ ((cfg.ns : ℕ) : ℚ) := by
        nlinarith
      have := Int.floor_le_floor hle
      rwa [Int.floor_natCast] at this
    omega
  · intro k hk
    have hx := hph k (by omega)
    rw [hx]
    rfl

/-- Claim C2, counterexample to "exactly ceil(ns*extra_giants)": with
`ns = 10`, `extra_giants = 1/4` and ten always-accepting draws the run
returns all 10 stars, but only 2 = floor(10/4) of them — not
ceil(10/4) = 3 — carry phase flag 1. -/
theorem phase1_count_not_ceil :
    (runGen envW cfgC2 (List.replicate 10 drawW)).iv = cfgC2.ns ∧
    phase1Count (runGen envW cfgC2 (List.replicate 10 drawW)).stars = 2 ∧
    ⌈(cfgC2.ns : ℚ) * cfgC2.extraGiants⌉ = 3 := by
  refine ⟨?_, ?_, ?_⟩ <;> with_unfolding_all decide

/-- Witness for `phase1_count_floor`: 4 requested stars with forcing
fraction 1/2 yield exactly 2 = floor(4/2) flagged stars, the last two. -/
theorem phase1_count_floor_witness :
    ((0 : ℚ) ≤ cfgW4.extraGiants ∧ cfgW4.extraGiants ≤ 1 ∧
      (runGen envW cfgW4 (List.replicate 4 drawW)).iv = cfgW4.ns) ∧
    ((phase1Count (runGen envW cfgW4 (List.replicate 4 drawW)).stars : ℤ)
        = ⌊(cfgW4.ns : ℚ) * cfgW4.extraGiants⌋ ∧
      (runGen envW cfgW4 (List.replicate 4 drawW)).stars.length = cfgW4.ns ∧
      ∀ k, k < cfgW4.ns →
        ((runGen envW cfgW4 (List.replicate 4 drawW)).stars.getD k default).phase
          = (if (k : ℚ) < (cfgW4.ns : ℚ) * (1 - cfgW4.extraGiants) then 0 else 1)) :=
  ⟨⟨by with_unfolding_all decide, by with_unfolding_all decide,
      by with_unfolding_all decide⟩,
    phase1_count_floor envW cfgW4 (List.replicate 4 drawW)
      (by with_unfolding_all decide) (by with_unfolding_all decide)
      (by with_unfolding_all decide)⟩

/-- Helper: when every requested non-plx name is present in the synthetic
dataset, loading succeeds, and each loaded column is the synthetic column,
transformed through `10**` exactly for 'logT'. -/
theorem loadTrue_ok (env : Env) (synth : List (String × List ℚ)) :
    ∀ names : List String,
      (∀ p ∈ names, p ≠ "plx" → (List.lookup p synth).isSome) →
      ∃ td, loadTrue env synth names = .ok td ∧
        ∀ p col, p ∈ names → p ≠ "plx" → List.lookup p synth = some col →
          List.lookup p td = some (if p = "logT" then col.map env.pow10 else col) := by
  intro names
  induction names with
  | nil =>
    intro _
    exact ⟨[], rfl, fun p col hp => absurd hp (List.not_mem_nil p)⟩
  | cons q rest ih =>
    intro hpres
    obtain ⟨td, htd, hprop⟩ :=
      ih (fun p hp hne => hpres p (List.mem_cons_of_mem _ hp) hne)
    by_cases hq : q = "plx"
    · subst hq
      refine ⟨td, ?_, ?_⟩
      · simp only [loadTrue, if_pos rfl]
        exact htd
      · intro p col hp hne hcol
        rcases List.mem_cons.mp hp with rfl | hp'
        · exact absurd rfl hne
        · exact hprop p col hp' hne hcol
    · have hqs : (List.lookup q synth).isSome :=
        hpres q (List.mem_cons_self q rest) hq
      obtain ⟨colq, hcolq⟩ := Option.isSome_iff_exists.mp hqs
      refine ⟨(q, if q = "logT" then colq.map env.pow10 else colq) :: td, ?_, ?_⟩
      · simp only [loadTrue, if_neg hq]
        rw [hcolq, htd]
      · intro p col hp hne hcol
        by_cases hpq : p = q
        · subst hpq
          rw [hcolq] at hcol
          injection hcol with hcol
          subst hcol
          simp [List.lookup_cons]
        · have hbeq : (p == q) = false := beq_eq_false_iff_ne.mpr hpq
          rw [List.lookup_cons]
          rw [hbeq]
          exact hprop p col
            (by
              rcases List.mem_cons.mp hp with h | h
              · exact absurd h hpq
              · exact h)
            hne hcol

/-- Claim C10, confirmed: when 'logT' is among the requested observation
parameters, `make_synth_obs` loads `10**logT` (linear temperature), not
the stored logarithm, as the true value; the observed 'logT' column is
that linearized column plus the scaled noise; and every other non-plx
requested parameter is loaded unchanged from the synthetic dataset. -/
theorem logT_observed_linear (env : Env) (synth : List (String × List ℚ))
    (names : List String) (col : List ℚ)
    (hpres : ∀ p ∈ names, p ≠ "plx" → (List.lookup p synth).isSome)
    (hlogT : List.lookup "logT" synth = some col)
    (hmem : "logT" ∈ names) :
    ∃ td, loadTrue env synth names = .ok td ∧
      List.lookup "logT" td = some (col.map env.pow10) ∧
      (∀ p colp, p ∈ names → p ≠ "logT" → p ≠ "plx" →
        List.lookup p synth = some colp → List.lookup p td = some colp) ∧
      ∀ (ns : ℕ) (obsMags : List String) (plxDist : PlxDist)
        (appMags : List (String × List ℚ)) (eps : ℕ → ℚ) (chi : ℕ → ℕ)
        (sig : ℚ) (rest : List (String × ℚ)) (keps kchi : ℕ),
        "logT" ∉ obsMags →
        List.lookup "logT"
            (obsLoop ⟨env, ns, obsMags, plxDist, td, appMags, eps, chi⟩
              (("logT", sig) :: rest) keps kchi)
          = some ((List.range ns).map
              (fun i => (col.map env.pow10).getD i 0 + sig * eps (keps + i))) := by
  obtain ⟨td, htd, hprop⟩ := loadTrue_ok env synth names hpres
  have hlog : List.lookup "logT" td = some (col.map env.pow10) := by
    have hx := hprop "logT" col hmem (by decide) hlogT
    simpa using hx
  refine ⟨td, htd, hlog, ?_, ?_⟩
  · intro p colp hp hne hnplx hcolp
    have hx := hprop p colp hp hnplx hcolp
    rwa [if_neg hne] at hx
  · intro ns obsMags plxDist appMags eps chi sig rest keps kchi hnm
    simp only [obsLoop]
    rw [if_neg hnm, if_neg (fun h => absurd h.1 (by decide))]
    rw [List.lookup_cons]
    have hbeq : (("logT" : String) == "logT") = true := by decide
    rw [hbeq, hlog]
    rfl

/-- Witness for `logT_observed_linear` on a two-parameter synthetic
dataset. -/
theorem logT_observed_linear_witness :
    ((∀ p ∈ ["logT", "logg"], p ≠ "plx" →
        (List.lookup p [("logT", [2]), ("logg", [5])]).isSome) ∧
      List.lookup "logT" ([("logT", [2]), ("logg", [5])] : List (String × List ℚ))
        = some [2] ∧
      "logT" ∈ ["logT", "logg"]) ∧
    (∃ td, loadTrue envObs [("logT", [2]), ("logg", [5])] ["logT", "logg"] = .ok td ∧
      List.lookup "logT" td = some (([2] : List ℚ).map envObs.pow10) ∧
      (∀ p colp, p ∈ ["logT", "logg"] → p ≠ "logT" → p ≠ "plx" →
        List.lookup p ([("logT", [2]), ("logg", [5])] : List (String × List ℚ))
          = some colp → List.lookup p td = some colp) ∧
      ∀ (ns : ℕ) (obsMags : List String) (plxDist : PlxDist)
        (appMags : List (String × List ℚ)) (eps : ℕ → ℚ) (chi : ℕ → ℕ)
        (sig : ℚ) (rest : List (String × ℚ)) (keps kchi : ℕ),
        "logT" ∉ obsMags →
        List.lookup "logT"
            (obsLoop ⟨envObs, ns, obsMags, plxDist, td, appMags, eps, chi⟩
              (("logT", sig) :: rest) keps kchi)
          = some ((List.range ns).map
              (fun i => (([2] : List ℚ).map envObs.pow10).getD i 0
                + sig * eps (keps + i)))) :=
  ⟨⟨by decide, by with_unfolding_all decide, by decide⟩,
    logT_observed_linear envObs [("logT", [2]), ("logg", [5])] ["logT", "logg"] [2]
      (by decide) (by with_unfolding_all decide) (by decide)⟩

/-- Helper: reading a list elementwise over its index range reproduces the
list. -/
theorem map_getD_range (t : List ℚ) :
    (List.range t.length).map (fun i => t.getD i 0) = t := by
  apply List.ext_getElem
  · simp
  · intro n h1 h2
    simp only [List.getElem_map, List.getElem_range]
    exact List.getD_eq_getElem t 0 h2

/-- Helper: with a zero uncertainty, a requested parameter that is neither
a photometric band nor a Skymapper parallax is observed exactly as its
true column. -/
theorem obsLoop_lookup_zero (c : ObsCtx) :
    ∀ (ps : List (String × ℚ)) (keps kchi : ℕ) (p : String),
      (∀ e ∈ ps, e.2 = 0) →
      p ∈ ps.map Prod.fst → p ∉ c.obsMags →
      ¬ (p = "plx" ∧ c.plxDist = .Skymapper) →
      ((List.lookup p c.td).getD []).length = c.ns →
      List.lookup p (obsLoop c ps keps kchi) = some ((List.lookup p c.td).getD []) := by
  intro ps
  induction ps with
  | nil =>
    intro keps kchi p _ hp
    cases hp
  | cons e rest ih =>
    intro keps kchi p hsig hp hnm hnsky hlen
    obtain ⟨q, sig⟩ := e
    have hsig0 : sig = 0 := hsig (q, sig) (List.mem_cons_self _ _)
    subst hsig0
    by_cases hpq : p = q
    · subst hpq
      simp only [obsLoop]
      rw [if_neg hnm, if_neg hnsky, List.lookup_cons]
      have hbeq : (p == p) = true := beq_self_eq_true p
      rw [hbeq]
      simp only [zero_mul, add_zero]
      rw [← hlen, map_getD_range]
    · have hp' : p ∈ rest.map Prod.fst := by
        simp only [List.map_cons, List.mem_cons] at hp
        rcases hp with h | h
        · exact absurd h hpq
        · exact h
      have hbeq : (p == q) = false := beq_eq_false_iff_ne.mpr hpq
      have htail := ih (keps + c.ns) kchi p
        (fun e he => hsig e (List.mem_cons_of_mem _ he)) hp' hnm hnsky hlen
      have htail2 := ih (keps + c.ns) (kchi + c.ns) p
        (fun e he => hsig e (List.mem_cons_of_mem _ he)) hp' hnm hnsky hlen
      simp only [obsLoop]
      by_cases h1 : q ∈ c.obsMags
      · rw [if_pos h1, List.lookup_cons, hbeq]
        exact htail
      · rw [if_neg h1]
        by_cases h2 : q = "plx" ∧ c.plxDist = .Skymapper
        · rw [if_pos h2, List.lookup_cons, hbeq]
          exact htail2
        · rw [if_neg h2, List.lookup_cons, hbeq]
          exact htail

/-- Claim C8, corrected. With every spec sigma equal to 0 the observed
value of each requested parameter equals its true value — except that a
parallax observed under the 'Skymapper' policy still differs from truth,
because there the noise scale is `true * drawn_relative_error`
(lines 238-243), independent of the spec sigma. The corrected statement:
for an all-zero-sigma spec in which parallax is not observed under
'Skymapper', every non-band observed column equals the corresponding true
column exactly (bands equal truth plus the derived distance modulus). -/
theorem zero_sigma_observes_true (env : Env) (synth : List (String × List ℚ))
    (ns : ℕ) (obsParams : List (String × ℚ)) (plxDist : PlxDist)
    (eps : ℕ → ℚ) (chi : ℕ → ℕ) (td : List (String × List ℚ))
    (hsig : ∀ e ∈ obsParams, e.2 = 0)
    (hval : obsMagsOf obsParams = [] ∨ "plx" ∈ obsParams.map Prod.fst)
    (hld : loadTrue env synth (obsParams.map Prod.fst) = .ok td)
    (hsky : ¬ (plxDist = .Skymapper ∧ "plx" ∈ obsParams.map Prod.fst))
    (hlen : ∀ p ∈ obsParams.map Prod.fst, p ∉ known_filters →
      ((List.lookup p (tdFull env ns (obsParams.map Prod.fst) plxDist eps td)).getD
        []).length = ns) :
    ∃ out, make_synth_obs env synth ns obsParams plxDist eps chi = .ok out ∧
      ∀ p ∈ obsParams.map Prod.fst, p ∉ known_filters →
        List.lookup p out
          = some ((List.lookup p
              (tdFull env ns (obsParams.map Prod.fst) plxDist eps td)).getD []) := by
  have hnotcond : ¬ (obsMagsOf obsParams ≠ [] ∧ "plx" ∉ obsParams.map Prod.fst) := by
    rcases hval with h | h
    · intro hc
      exact hc.1 h
    · intro hc
      exact hc.2 h
  have hrun : make_synth_obs env synth ns obsParams plxDist eps chi
      = .ok (obsLoop
          ⟨env, ns, obsMagsOf obsParams, plxDist,
            tdFull env ns (obsParams.map Prod.fst) plxDist eps td,
            (obsMagsOf obsParams).map (fun mag =>
              (mag, (List.range ns).map
                (fun i => ((List.lookup mag
                    (tdFull env ns (obsParams.map Prod.fst) plxDist eps td)).getD
                      []).getD i 0
                  + (muTrueOf env ns plxDist eps).getD i 0))),
            eps, chi⟩
          obsParams (kAfterPlxOf ns (obsParams.map Prod.fst) plxDist) 0) := by
    simp only [make_synth_obs]
    rw [if_neg hnotcond, hld]
  refine ⟨_, hrun, ?_⟩
  intro p hp hpf
  have hnm : p ∉ obsMagsOf obsParams := by
    intro hmem
    have := (List.mem_filter.mp hmem).2
    simp only [decide_eq_true_eq] at this
    exact hpf this
  have hnsky : ¬ (p = "plx" ∧ plxDist = PlxDist.Skymapper) := by
    rintro ⟨rfl, hd⟩
    exact hsky ⟨hd, hp⟩
  exact obsLoop_lookup_zero _ obsParams _ _ p hsig hp hnm hnsky (hlen p hp hpf)

/-- Claim C8, counterexample to the claim as stated: observing only `plx`
with sigma 0 under the 'Skymapper' policy yields observed parallax 51/50
while the true parallax is 1 — zero-sigma observation is not the identity
under that policy. -/
theorem zero_sigma_skymapper_cex :
    (∀ e ∈ ([("plx", (0 : ℚ))] : List (String × ℚ)), e.2 = 0) ∧
    make_synth_obs envObs [] 1 [("plx", 0)] .Skymapper (fun _ => 1) (fun _ => 0)
      = .ok [("plx", [51/50])] ∧
    tdFull envObs 1 ["plx"] .Skymapper (fun _ => 1) [] = [("plx", [1])] ∧
    ((51 : ℚ)/50) ≠ 1 :=
  ⟨by decide, by with_unfolding_all rfl, by with_unfolding_all rfl,
    by with_unfolding_all decide⟩

/-- Witness for `zero_sigma_observes_true`: a single zero-sigma parameter
under a constant parallax policy is observed exactly. -/
theorem zero_sigma_observes_true_witness :
    ((∀ e ∈ ([("logg", (0 : ℚ))] : List (String × ℚ)), e.2 = 0) ∧
      loadTrue envObs [("logg", [7])] ([("logg", (0 : ℚ))].map Prod.fst)
        = .ok [("logg", [7])]) ∧
    (∃ out, make_synth_obs envObs [("logg", [7])] 1 [("logg", 0)] (.const 1)
        (fun _ => 0) (fun _ => 0) = .ok out ∧
      ∀ p ∈ [("logg", (0 : ℚ))].map Prod.fst, p ∉ known_filters →
        List.lookup p out
          = some ((List.lookup p
              (tdFull envObs 1 ([("logg", (0 : ℚ))].map Prod.fst) (.const 1)
                (fun _ => 0) [("logg", [7])])).getD [])) :=
  ⟨⟨by decide, by with_unfolding_all rfl⟩,
    zero_sigma_observes_true envObs [("logg", [7])] 1 [("logg", 0)] (.const 1)
      (fun _ => 0) (fun _ => 0) [("logg", [7])]
      (by decide) (Or.inl (by decide)) (by with_unfolding_all rfl)
      (by decide) (by with_unfolding_all decide)⟩

/-- Helper: `np.diff` shortens a list by one. -/
theorem npDiff_length (xs : List ℚ) : (npDiff xs).length = xs.length - 1 := by
  unfold npDiff
  rw [List.length_map, List.length_zip, List.length_tail]
  omega

/-- Helper: a list of length 5 is a literal five-element list. -/
theorem exists_five {α : Type} (l : List α) (h : l.length = 5) :
    ∃ a b c d e, l = [a, b, c, d, e] := by
  rcases l with _ | ⟨a, l⟩
  · simp at h
  rcases l with _ | ⟨b, l⟩
  · simp at h
  rcases l with _ | ⟨c, l⟩
  · simp at h
  rcases l with _ | ⟨d, l⟩
  · simp at h
  rcases l with _ | ⟨e, l⟩
  · simp at h
  rcases l with _ | ⟨f, l⟩
  · exact ⟨a, b, c, d, e, rfl⟩
  · simp at h

/-- Claim C1, corrected (the holding part). The split index is the median
of the indices of the 5 smallest SIGNED successive temperature differences
(`np.argsort` sorts the signed values, so the most negative differences are
selected), not of the 5 smallest absolute differences: the five selected
indices are pairwise distinct, valid, and carry differences no larger
(signed) than every unselected difference, and `split_ind` is their median
— it belongs to the selection, with at least 3 selected indices at or
below it and at least 3 at or above it. -/
theorem split_ind_median_of_signed (ts : List ℚ) (h6 : 6 ≤ ts.length) :
    (low_inds ts).length = 5 ∧ (low_inds ts).Nodup ∧
    (∀ i ∈ low_inds ts, i < (npDiff ts).length) ∧
    (∀ i ∈ low_inds ts, ∀ j, j < (npDiff ts).length → j ∉ low_inds ts →
      (npDiff ts).getD i 0 ≤ (npDiff ts).getD j 0) ∧
    split_ind ts ∈ low_inds ts ∧
    3 ≤ (low_inds ts).countP (fun i => decide (i ≤ split_ind ts)) ∧
    3 ≤ (low_inds ts).countP (fun i => decide (split_ind ts ≤ i)) := by
  set ds := npDiff ts with hds
  have hdlen : 5 ≤ ds.length := by
    rw [hds, npDiff_length]
    omega
  haveI htot : IsTotal ℕ (argRel ds) := ⟨by
    intro i j
    unfold argRel
    rcases lt_trichotomy (ds.getD i 0) (ds.getD j 0) with h | h | h
    · exact Or.inl (Or.inl h)
    · rcases Nat.le_total i j with hij | hij
      · exact Or.inl (Or.inr ⟨h, hij⟩)
      · exact Or.inr (Or.inr ⟨h.symm, hij⟩)
    · exact Or.inr (Or.inl h)⟩
  haveI htrans : IsTrans ℕ (argRel ds) := ⟨by
    intro x y z hxy hyz
    unfold argRel at *
    rcases hxy with h1 | ⟨h1e, h1i⟩ <;> rcases hyz with h2 | ⟨h2e, h2i⟩
    · exact Or.inl (lt_trans h1 h2)
    · exact Or.inl (h2e ▸ h1)
    · exact Or.inl (h1e ▸ h2)
    · exact Or.inr ⟨h1e.trans h2e, le_trans h1i h2i⟩⟩
  have hsorted : List.Sorted (argRel ds) (argsort ds) :=
    List.sorted_insertionSort (argRel ds) (List.range ds.length)
  have hperm : (argsort ds).Perm (List.range ds.length) :=
    List.perm_insertionSort (argRel ds) (List.range ds.length)
  have hlen_as : (argsort ds).length = ds.length := by
    rw [hperm.length_eq, List.length_range]
  have hlow : low_inds ts = (argsort ds).take 5 := rfl
  have hL5 : (low_inds ts).length = 5 := by
    rw [hlow, List.length_take, hlen_as]
    omega
  have hnd_as : (argsort ds).Nodup := hperm.nodup_iff.mpr (List.nodup_range _)
  have hLnd : (low_inds ts).Nodup := by
    rw [hlow]
    exact List.Nodup.sublist (List.take_sublist 5 _) hnd_as
  have hmemlt : ∀ i ∈ low_inds ts, i < ds.length := by
    intro i hi
    have hias : i ∈ argsort ds := (List.take_sublist 5 _).subset (hlow ▸ hi)
    exact List.mem_range.mp (hperm.mem_iff.mp hias)
  have hsplitLR : argsort ds = (argsort ds).take 5 ++ (argsort ds).drop 5 :=
    (List.take_append_drop 5 _).symm
  have hminprop : ∀ i ∈ low_inds ts, ∀ j, j < ds.length → j ∉ low_inds ts →
      ds.getD i 0 ≤ ds.getD j 0 := by
    intro i hi j hj hjn
    have hjas : j ∈ argsort ds := hperm.mem_iff.mpr (List.mem_range.mpr hj)
    have hjdrop : j ∈ (argsort ds).drop 5 := by
      rcases List.mem_append.mp (hsplitLR ▸ hjas) with h | h
      · exact absurd (hlow ▸ h) hjn
      · exact h
    have hpw : List.Pairwise (argRel ds) ((argsort ds).take 5 ++ (argsort ds).drop 5) :=
      hsplitLR ▸ hsorted
    have hrel : argRel ds i j :=
      (List.pairwise_append.mp hpw).2.2 i (hlow ▸ hi) j hjdrop
    rcases hrel with h | ⟨he, _⟩
    · exact le_of_lt h
    · exact le_of_eq he
  obtain ⟨a, b, c, d, e, hs_eq⟩ := exists_five
    (List.insertionSort (· ≤ ·) (low_inds ts))
    (by rw [List.length_insertionSort, hL5])
  have hsorted5 : List.Sorted (· ≤ ·) (List.insertionSort (· ≤ ·) (low_inds ts)) :=
    List.sorted_insertionSort _ _
  have hperm5 : (List.insertionSort (· ≤ ·) (low_inds ts)).Perm (low_inds ts) :=
    List.perm_insertionSort _ _
  rw [hs_eq] at hsorted5 hperm5
  have h1 := (List.sorted_cons.mp hsorted5).1
  have hsort2 := (List.sorted_cons.mp hsorted5).2
  have h2 := (List.sorted_cons.mp hsort2).1
  have hsort3 := (List.sorted_cons.mp hsort2).2
  have h3 := (List.sorted_cons.mp hsort3).1
  have hac : a ≤ c := h1 c (by simp)
  have hbc : b ≤ c := h2 c (by simp)
  have hcd : c ≤ d := h3 d (by simp)
  have hce : c ≤ e := h3 e (by simp)
  have hsplit_c : split_ind ts = c := by
    show npMedianNat (low_inds ts) = c
    simp only [npMedianNat]
    rw [hL5, hs_eq]
    rfl
  have hcmem : split_ind ts ∈ low_inds ts := by
    rw [hsplit_c]
    exact hperm5.subset (by simp)
  have hcount1 : 3 ≤ (low_inds ts).countP (fun i => decide (i ≤ split_ind ts)) := by
    rw [hsplit_c, ← hperm5.countP_eq]
    simp only [List.countP_cons, List.countP_nil, decide_eq_true_eq]
    split_ifs <;> omega
  have hcount2 : 3 ≤ (low_inds ts).countP (fun i => decide (split_ind ts ≤ i)) := by
    rw [hsplit_c, ← hperm5.countP_eq]
    simp only [List.countP_cons, List.countP_nil, decide_eq_true_eq]
    split_ifs <;> omega
  exact ⟨hL5, hLnd, hmemlt, hminprop, hcmem, hcount1, hcount2⟩

/-- Claim C1, counterexample to "absolute differences": on the realizable
temperature array `tsC1` (successive differences -100, -90, -80, 1, 2, 3,
50, 60) the code's split index — median of the argsort of the SIGNED
differences — is 2, while the median index of the 5 smallest ABSOLUTE
differences is 5. The spec's "absolute" description disagrees with the
code on this track. -/
theorem split_ind_not_absolute_cex :
    split_ind tsC1 = 2 ∧ split_ind_specAbs tsC1 = 5 ∧
    tempsOf envC1 cfgW drawW = tsC1 ∧ splitOf envC1 cfgW drawW = 2 := by
  refine ⟨?_, ?_, ?_, ?_⟩ <;> with_unfolding_all decide

/-- Witness for `split_ind_median_of_signed` at the concrete temperature
array `tsC1`. -/
theorem split_ind_median_of_signed_witness :
    6 ≤ tsC1.length ∧
    ((low_inds tsC1).length = 5 ∧ (low_inds tsC1).Nodup ∧
      (∀ i ∈ low_inds tsC1, i < (npDiff tsC1).length) ∧
      (∀ i ∈ low_inds tsC1, ∀ j, j < (npDiff tsC1).length → j ∉ low_inds tsC1 →
        (npDiff tsC1).getD i 0 ≤ (npDiff tsC1).getD j 0) ∧
      split_ind tsC1 ∈ low_inds tsC1 ∧
      3 ≤ (low_inds tsC1).countP (fun i => decide (i ≤ split_ind tsC1)) ∧
      3 ≤ (low_inds tsC1).countP (fun i => decide (split_ind tsC1 ≤ i))) :=
  ⟨by decide, split_ind_median_of_signed tsC1 (by decide)⟩

end Mksynth
